import Mathlib

/-!
Verification of the front-matter extraction library (gray-matter-es).

Shallow embedding of the source files `src/index.ts`, `src/excerpt.ts`,
`src/stringify.ts`, `src/utils.ts`, `src/to-file.ts`, `src/parse.ts` and
`src/engine.ts`.  JavaScript strings are modelled as `List Char`; machine
string operations (`slice`, `indexOf`, `charAt`, `search`, `trim`,
the comment-stripping global regex replace) are modelled by executable
functions defined below, each mirroring the exact JS semantics used by the
source.  Fallible paths (engine lookup, engine parse, stringify capability)
are modelled with `Except`.
-/

/-- Decidable equality for fallible results, so concrete runs can be
checked by evaluation. -/
instance {ε α : Type} [DecidableEq ε] [DecidableEq α] : DecidableEq (Except ε α)
  | .ok a, .ok b => decidable_of_iff (a = b) (by simp)
  | .error a, .error b => decidable_of_iff (a = b) (by simp)
  | .ok _, .error _ => .isFalse (by simp)
  | .error _, .ok _ => .isFalse (by simp)

namespace GrayMatter

/-- JavaScript strings, modelled as lists of characters. -/
abbrev Str := List Char

/-- Parsed front-matter data: a mapping from string keys to string values,
modelled as an association list (sufficient for every value the claims
inspect). -/
abbrev Data := List (Str × Str)

/-- Look up the first binding of a key in a data mapping. -/
def lookupData (d : Data) (k : Str) : Option Str :=
  (d.find? (fun p => p.1 == k)).map (fun p => p.2)

/-- JS object spread merge `\x7b...a, ...b\x7d`: keys of `a` keep their position but
take `b`'s value when `b` also binds them; keys only in `b` are appended. -/
def mergeData (a b : Data) : Data :=
  (a.map (fun kv =>
    match lookupData b kv.1 with
    | some v => (kv.1, v)
    | none => kv)) ++
  b.filter (fun kv => (lookupData a kv.1).isNone)

/-- JS `String.prototype.charAt(n)`, as an optional character
(`none` models the empty string JS returns out of range). -/
def jsCharAt (s : Str) (n : Nat) : Option Char :=
  (s.drop n).head?

/-- JS `str.slice(0, e)` for a possibly negative end index. -/
def jsSliceTo (s : Str) (e : Int) : Str :=
  if e < 0 then s.take (s.length - (-e).toNat) else s.take e.toNat

/-- Character class of the JS `\s` regex escape and of `String.prototype.trim`
(ASCII whitespace plus the Unicode space separators). -/
def isJsWs (c : Char) : Bool :=
  c == ' ' || c == '\t' || c == '\n' || c == '\r' || c == '\x0b' || c == '\x0c' ||
  c == ' ' || c == ' ' || (0x2000 ≤ c.val && c.val ≤ 0x200a) ||
  c == ' ' || c == ' ' || c == ' ' || c == ' ' ||
  c == '　' || c == '﻿'

/-- JS `String.prototype.trim`. -/
def jsTrim (s : Str) : Str :=
  ((s.dropWhile isJsWs).reverse.dropWhile isJsWs).reverse

/-- First index at which `sub` occurs in `s`; JS `indexOf` returns `-1`
for the `none` case. -/
def indexOfSub (s sub : Str) : Option Nat :=
  if sub.isPrefixOf s then some 0
  else
    match s with
    | [] => none
    | _ :: t => (indexOfSub t sub).map (fun n => n + 1)

/-- First match position of the regex `\r?\n` (JS `String.prototype.search`,
`-1 = none`): position of a `\n`, or of a `\r` immediately followed by `\n`. -/
def searchRN : Str → Option Nat
  | [] => none
  | '\n' :: _ => some 0
  | '\r' :: '\n' :: _ => some 0
  | _ :: t => (searchRN t).map (fun n => n + 1)

/-- Strip a leading byte-order mark (from `src/utils.ts`, `stripBom`). -/
def stripBom (s : Str) : Str :=
  match s with
  | c :: t => if c = '﻿' then t else s
  | [] => []

/-- Modelled from the spec: `startsWith(str, substr, len)` is imported by the
extractor from `utils.ts` but the exported function is absent from the given
sources; spec §4.3 step 1 describes it as a same-length prefix match, i.e. the
original `str.slice(0, len) === substr` with `len` defaulting to
`substr.length`. -/
def startsWithLen (str sub : Str) (len : Nat) : Bool :=
  str.take len == sub

/-- Attempt the regex `^\s*#[^\n]+` at a line-start position: a greedy run of
whitespace (which may span line breaks), a `#`, then at least one
non-newline character; returns the matched length. -/
def commentMatch (s : Str) : Option Nat :=
  let w := s.takeWhile isJsWs
  match s.drop w.length with
  | '#' :: rest =>
    let body := rest.takeWhile (fun c => c ≠ '\n')
    if body.length = 0 then none else some (w.length + 1 + body.length)
  | _ => none

/-- Worker for the global replace of `^\s*#[^\n]+` (multiline) by the empty
string: scan left to right, attempting a match at every line start and
resuming after each match.  The fuel starts at the string length; every step
consumes at least one character, so the fuel never runs out. -/
def stripCommentsGo : Nat → Str → Bool → Str
  | 0, s, _ => s
  | _ + 1, [], _ => []
  | fuel + 1, c :: rest, lineStart =>
    if lineStart then
      match commentMatch (c :: rest) with
      | some n => stripCommentsGo fuel ((c :: rest).drop n) false
      | none => c :: stripCommentsGo fuel rest (c == '\n')
    else c :: stripCommentsGo fuel rest (c == '\n')

/-- The source's `file.matter.replace(<comment-line regex>, "")` from
`src/index.ts` line 136: delete every match of "line start, optional
whitespace, `#`, rest of line". -/
def stripComments (s : Str) : Str :=
  stripCommentsGo s.length s true

/-- Split a list at every occurrence of a separator element. -/
def splitOnChar (c : Char) : Str → List Str
  | [] => [[]]
  | x :: t =>
    let r := splitOnChar c t
    if x = c then [] :: r
    else
      match r with
      | h :: t' => (x :: h) :: t'
      | [] => [[x]]

/-- A language engine: a parse capability and an optional stringify
capability (`src/types.ts`, `Engine`, after normalisation of bare parse
functions). -/
structure Engine where
  parse : Str → Except Str Data
  stringify : Option (Data → Str) := none

/-- The document record (`src/types.ts`, `GrayMatterFile`).  The `stringify`
method closure is not carried on the record in this model; the stringifier is
the standalone `stringifyGM` below, which is what the closure calls. -/
structure GMFile where
  data : Data
  content : Str
  excerpt : Str
  orig : Str
  language : Str
  matter : Str
  isEmpty : Bool
  empty : Option Str := none
  path : Option Str := none
  deriving Repr, DecidableEq

/-- Excerpt option of the configuration: absent, boolean flag, literal
separator string, or a callback (the callback mutates the file record). -/
inductive ExcerptOpt where
  | undef : ExcerptOpt
  | flag (b : Bool) : ExcerptOpt
  | sep (s : Str) : ExcerptOpt
  | fn (f : GMFile → GMFile) : ExcerptOpt

end GrayMatter

namespace GrayMatter

/-- Caller-facing options (`src/types.ts`, `GrayMatterOptions`).  Delimiters
are a single string applied to both sides or an explicit open/close pair. -/
structure GrayMatterOptions where
  language : Option Str := none
  delimiters : Option (Str ⊕ (Str × Str)) := none
  excerpt : ExcerptOpt := .undef
  excerpt_separator : Option Str := none
  engines : List (Str × Engine) := []
  data : Option Data := none

/-- Options after default resolution (`src/types.ts`, `ResolvedOptions`). -/
structure ResolvedOptions where
  language : Str
  delimiters : Str × Str
  excerpt : ExcerptOpt
  excerpt_separator : Option Str
  engines : Str → Option Engine
  data : Option Data

/-- Modelled from the spec: the default yaml engine is the external
`@std/yaml` dependency, declared out of scope by spec §1 (engines are opaque
`parse`/`stringify` pairs).  It is modelled as a CR-tolerant line-based
`key: value` parser — blank lines and `#` comment lines are skipped, every
other line must contain a colon — which is faithful on every yaml document
appearing in the claims. -/
def yamlParseModel (s : Str) : Except Str Data :=
  let lns := (splitOnChar '\n' s).map
    (fun l => if l.getLast? = some '\r' then l.dropLast else l)
  lns.foldlM
    (fun acc l =>
      let t := jsTrim l
      if t = [] then .ok acc
      else if t.head? = some '#' then .ok acc
      else
        match indexOfSub l [':'] with
        | none => .error "invalid yaml line".toList
        | some i => .ok (acc ++ [(jsTrim (l.take i), jsTrim (l.drop (i + 1)))]))
    []

/-- Modelled from the spec: yaml serialisation of a flat string mapping, one
`key: value` line per binding. -/
def yamlStringifyModel (d : Data) : Str :=
  d.foldr (fun kv acc => kv.1 ++ (": ".toList ++ (kv.2 ++ ('\n' :: acc)))) []

/-- The default yaml engine (spec §6: built-in engines, yaml is the default). -/
def yamlEngine : Engine :=
  { parse := yamlParseModel, stringify := some yamlStringifyModel }

/-- Modelled from the spec: the built-in engine registry (spec §6).  Only the
default yaml engine is given a concrete model; the json and javascript
engines are external/unsafe capabilities no claim exercises, and theorems
needing another engine register it through the `engines` option. -/
def builtinEngines : Str → Option Engine :=
  fun n => if n = "yaml".toList then some yamlEngine else none

/-- Case-insensitive alias resolution of engine names
(`src/engine.ts`; spec §4.1: js/javascript → javascript, yaml/yml → yaml). -/
def aliasName (n : Str) : Str :=
  let l := n.map Char.toLower
  if l = "js".toList ∨ l = "javascript".toList then "javascript".toList
  else if l = "yaml".toList ∨ l = "yml".toList then "yaml".toList
  else n

/-- Modelled from the spec: `defaults.ts` is imported by the extractor but
absent from the given sources.  Per spec §3/§6 it resolves: delimiters (a
single string is applied to both sides; default three hyphens), language
(default `yaml`), engines (caller entries override the built-in registry),
and passes the excerpt settings and extra data through. -/
def defaults (o : Option GrayMatterOptions) : ResolvedOptions :=
  let opt := o.getD {}
  { language := opt.language.getD "yaml".toList
    delimiters :=
      match opt.delimiters with
      | none => ("---".toList, "---".toList)
      | some (.inl s) => (s, s)
      | some (.inr p) => p
    excerpt := opt.excerpt
    excerpt_separator := opt.excerpt_separator
    engines := fun n =>
      ((opt.engines.find? (fun p => p.1 == n)).map (fun p => p.2)).orElse
        (fun _ => builtinEngines n)
    data := opt.data }

/-- Engine lookup (`src/engine.ts`, `getEngine`): the literal name, then its
alias; `none` models the thrown unregistered-engine error. -/
def getEngine (name : Str) (opts : ResolvedOptions) : Option Engine :=
  (opts.engines name).orElse (fun _ => opts.engines (aliasName name))

/-- Extraction error taxonomy (spec §7): unregistered engine, engine parse
failure, missing stringify capability. -/
inductive MatterErr where
  | engineMissing (name : Str) : MatterErr
  | parseFail (msg : Str) : MatterErr
  | noStringify (name : Str) : MatterErr
  deriving Repr, DecidableEq

/-- Front-matter parsing through the resolved engine (`src/parse.ts`). -/
def parseLang (language : Str) (str : Str) (opts : ResolvedOptions) :
    Except MatterErr Data :=
  match getEngine language opts with
  | none => .error (.engineMissing language)
  | some e => (e.parse str).mapError (fun m => .parseFail m)

/-- Whether the excerpt option is the callback form. -/
def isCallback : ExcerptOpt → Bool
  | .fn _ => true
  | _ => false

/-- Whether the excerpt option is `false` or absent (the JS test
`opts.excerpt === false || opts.excerpt == null`). -/
def excerptIsOff : ExcerptOpt → Bool
  | .flag false => true
  | .undef => true
  | _ => false

/-- The literal separator string when the excerpt option is one. -/
def excerptStr? : ExcerptOpt → Option Str
  | .sep s => some s
  | _ => none

/-- The excerpt extractor (`src/excerpt.ts`).  The source takes raw options
and re-resolves them; the extractor hands it already-resolved options, which
resolution leaves unchanged, so the model takes `ResolvedOptions` directly. -/
def excerpt (file : GMFile) (opts : ResolvedOptions) : GMFile :=
  match opts.excerpt with
  | .fn f => f file
  | eo =>
    let sep :=
      (lookupData file.data "excerpt_separator".toList).orElse
        (fun _ => opts.excerpt_separator)
    if sep.isNone && excerptIsOff eo then file
    else
      let delimiter :=
        match excerptStr? eo with
        | some s => s
        | none => sep.getD opts.delimiters.1
      match indexOfSub file.content delimiter with
      | some idx => { file with excerpt := file.content.take idx }
      | none => file

/-- Input accepted by the entry point (`src/types.ts`, `GrayMatterInput`):
plain text, a byte buffer (modelled as its decoded text), or an object
carrying `content` and optionally `data`. -/
inductive GMInput where
  | str (s : Str) : GMInput
  | buf (s : Str) : GMInput
  | obj (content : Str) (data : Option Data) : GMInput

/-- The normaliser (`src/to-file.ts`, `toFile`): builds the canonical record,
keeps the raw input as `orig`, and BOM-strips `content`. -/
def toFile (input : GMInput) : GMFile :=
  let cd : Str × Data :=
    match input with
    | .str s => (s, [])
    | .buf s => (s, [])
    | .obj c d => (c, d.getD [])
  { data := cd.2
    content := stripBom cd.1
    excerpt := []
    orig := cd.1
    language := []
    matter := []
    isEmpty := false
    empty := none
    path := none }

end GrayMatter

namespace GrayMatter

/-- Source `src/index.ts` lines 98-100: seed the language field from the
resolved options when that is non-empty. -/
def fileAfterOption (file : GMFile) (opts : ResolvedOptions) : GMFile :=
  if opts.language ≠ [] then { file with language := opts.language } else file

/-- Inline-language sniff (`src/index.ts`, `matterLanguage` over resolved
options): optionally strip a leading open delimiter, then take the text up to
the first `\r?\n` (JS `slice(0, -1)` when there is none). -/
def matterLanguage (str : Str) (opts : ResolvedOptions) :
    Str × Str :=
  let op := opts.delimiters.1
  let str := if startsWithLen str op op.length then str.drop op.length else str
  let language := jsSliceTo str ((searchRN str).elim (-1) Int.ofNat)
  (language, if language ≠ [] then jsTrim language else [])

/-- The text after stripping the open delimiter (`str` after line 117). -/
def strAfterOpen (c : Str) (opts : ResolvedOptions) : Str :=
  c.drop opts.delimiters.1.length

/-- The inline-language sniff applied where the extractor applies it:
first component the raw tag line, second the trimmed name. -/
def langOf (c : Str) (opts : ResolvedOptions) : Str × Str :=
  matterLanguage (strAfterOpen c opts) opts

/-- The text after also stripping a detected inline language tag
(`str` after line 124). -/
def strAfterLang (c : Str) (opts : ResolvedOptions) : Str :=
  if (langOf c opts).2 ≠ [] then
    (strAfterOpen c opts).drop (langOf c opts).1.length
  else strAfterOpen c opts

/-- The close-delimiter index (`src/index.ts` lines 127-131): position of
`"\n" + close` in the post-tag text, falling back to the length of the
pre-tag text when absent. -/
def closeIndexOf (c : Str) (opts : ResolvedOptions) : Nat :=
  (indexOfSub (strAfterLang c opts) ('\n' :: opts.delimiters.2)).getD
    (strAfterOpen c opts).length

/-- The raw front-matter block (`src/index.ts` line 134). -/
def rawMatterOf (c : Str) (opts : ResolvedOptions) : Str :=
  (strAfterLang c opts).take (closeIndexOf c opts)

/-- Strip at most one leading carriage return. -/
def dropOneCR (s : Str) : Str :=
  if s.head? = some '\r' then s.drop 1 else s

/-- Strip at most one leading line feed. -/
def dropOneLF (s : Str) : Str :=
  if s.head? = some '\n' then s.drop 1 else s

/-- The body after the close delimiter (`src/index.ts` lines 147-157):
empty when the close delimiter was missing, else the remainder with at most
one `\r` then at most one `\n` stripped. -/
def contentAfterClose (c : Str) (opts : ResolvedOptions) : Str :=
  if closeIndexOf c opts = (strAfterOpen c opts).length then []
  else
    dropOneLF (dropOneCR
      ((strAfterLang c opts).drop
        (closeIndexOf c opts + ('\n' :: opts.delimiters.2).length)))

/-- Whether the open check passes and the collision guard does not fire:
the input starts with the open delimiter and the character right after it
differs from the delimiter's last character (`src/index.ts` lines 102-114). -/
def validOpen (c : Str) (opts : ResolvedOptions) : Bool :=
  startsWithLen c opts.delimiters.1 opts.delimiters.1.length &&
    !(jsCharAt c opts.delimiters.1.length == opts.delimiters.1.getLast?)

/-- The front-matter extractor state machine (`src/index.ts`,
`parseMatter`).  Mirrors the source line by line: option language seeding,
open-delimiter check (no front matter → excerpt on the whole content),
delimiter-collision guard (return unchanged), inline-language sniff, close
scan, comment-strip emptiness test or engine parse, body normalisation,
excerpt extraction. -/
def parseMatter (file : GMFile) (options : Option GrayMatterOptions) :
    Except MatterErr GMFile :=
  let opts := defaults options
  let op := opts.delimiters.1
  let str := file.content
  let f0 := fileAfterOption file opts
  if !(startsWithLen str op op.length) then .ok (excerpt f0 opts)
  else if jsCharAt str op.length == op.getLast? then .ok f0
  else
    let lang := langOf str opts
    let f1 := if lang.2 ≠ [] then { f0 with language := lang.2 } else f0
    let m := rawMatterOf str opts
    let f2 := { f1 with matter := m }
    let fe : Except MatterErr GMFile :=
      if jsTrim (stripComments m) = [] then
        .ok { f2 with isEmpty := true, empty := some f2.content, data := [] }
      else (parseLang f2.language m opts).map (fun d => { f2 with data := d })
    fe.map (fun f3 =>
      excerpt { f3 with content := contentAfterClose str opts } opts)

/-- The memoisation cache (`src/index.ts` line 30), keyed by normalised
content. -/
abbrev Cache := List (Str × GMFile)

/-- Cache lookup. -/
def cacheGet (c : Cache) (k : Str) : Option GMFile :=
  (c.find? (fun p => p.1 == k)).map (fun p => p.2)

/-- Cache insertion. -/
def cacheSet (c : Cache) (k : Str) (f : GMFile) : Cache :=
  (k, f) :: c

/-- The entry point (`src/index.ts`, `matterImpl`) with the cache passed
explicitly.  The empty string short-circuits before normalisation and before
any cache interaction.  Without options the cache is consulted and, on a
miss, populated with the extraction result (the source stores the record
object before parsing and lets in-place mutation fill it; on an engine
failure it would retain the partially mutated record, a state no claim
observes and which this model approximates by the pre-parse record). -/
def matterImpl (cache : Cache) (input : GMInput)
    (options : Option GrayMatterOptions) : Except MatterErr GMFile × Cache :=
  match input with
  | .str [] =>
    (.ok { data := [], content := [], excerpt := [], orig := [],
           language := [], matter := [], isEmpty := true }, cache)
  | _ =>
    let file := toFile input
    match options with
    | none =>
      match cacheGet cache file.content with
      | some cached => (.ok cached, cache)
      | none =>
        match parseMatter file none with
        | .ok f => (.ok f, cacheSet cache file.content f)
        | .error e => (.error e, cacheSet cache file.content file)
    | some _ => (parseMatter file options, cache)

/-- Extraction as observed by a caller in a fresh session (empty cache). -/
def extract (input : GMInput) (options : Option GrayMatterOptions) :
    Except MatterErr GMFile :=
  (matterImpl [] input options).1

/-- Append a newline unless the string already ends with one
(`src/stringify.ts`, `newline`). -/
def newline (s : Str) : Str :=
  if s.getLast? ≠ some '\n' then s ++ ['\n'] else s

/-- The stringifier (`src/stringify.ts`, `stringify`) on a document record.
When neither data nor options are supplied the record's own data is used;
a missing data argument falls back to the configured extra data or returns
the body unchanged; the engine is the record's language or the configured
one; merged data serialising (after trim) to the literal `\x7b\x7d` sentinel omits
the front-matter framing; a non-empty excerpt absent (trimmed) from the body
is re-emitted before the close delimiter; every segment is
newline-terminated.  (The source also accepts a plain string with no further
arguments and returns it unchanged; no claim exercises that branch.) -/
def stringifyGM (file : GMFile) (data? : Option Data)
    (options? : Option GrayMatterOptions) : Except MatterErr Str :=
  let da : Option Data × Option GrayMatterOptions :=
    if data?.isNone && options?.isNone then (some file.data, some {})
    else (data?, options?)
  let str := file.content
  let opts := defaults da.2
  match (match da.1 with | none => opts.data | some d => some d) with
  | none => .ok str
  | some data =>
    let language := if file.language ≠ [] then file.language else opts.language
    match getEngine language opts with
    | none => .error (.engineMissing language)
    | some e =>
      match e.stringify with
      | none => .error (.noStringify language)
      | some sf =>
        let data := mergeData file.data data
        let matterS := jsTrim (sf data)
        let buf :=
          if matterS ≠ "{}".toList then
            newline opts.delimiters.1 ++ newline matterS ++
              newline opts.delimiters.2
          else []
        let buf :=
          if file.excerpt ≠ [] ∧ indexOfSub str (jsTrim file.excerpt) = none
          then buf ++ newline file.excerpt ++ newline opts.delimiters.2
          else buf
        .ok (buf ++ newline str)

/-- The language the extractor hands to the engine on the main path:
inline tag when present, else the option-seeded record language. -/
def mainLanguage (f : GMFile) (o : Option GrayMatterOptions) : Str :=
  if (langOf f.content (defaults o)).2 ≠ [] then (langOf f.content (defaults o)).2
  else (fileAfterOption f (defaults o)).language

/-- The amended language-resolution policy: the inline tag wins, then the
explicit caller-supplied language option, then the default yaml. -/
def amendedLanguage (t : Str) (o : Option GrayMatterOptions) : Str :=
  if (langOf t (defaults o)).2 ≠ [] then (langOf t (defaults o)).2
  else (o.bind (fun x => x.language)).getD "yaml".toList

/-- The amended excerpt-separator resolution policy, stated in the spec's
words as corrected: a literal-string excerpt option first, then the
data-level excerpt_separator field, then the configured excerpt_separator,
then the open delimiter; `none` means extraction is skipped (excerpt option
false or absent and no separator from data or configuration). -/
def amendedSeparator (file : GMFile) (opts : ResolvedOptions) : Option Str :=
  match excerptStr? opts.excerpt with
  | some s => some s
  | none =>
    match (lookupData file.data "excerpt_separator".toList).orElse
        (fun _ => opts.excerpt_separator) with
    | some s => some s
    | none =>
      if excerptIsOff opts.excerpt then none else some opts.delimiters.1

/-- The excerpt extractor as the amended policy describes it: resolve a
separator (or skip), then slice the content before its first occurrence. -/
def excerptAmendedSpec (file : GMFile) (opts : ResolvedOptions) : GMFile :=
  match amendedSeparator file opts with
  | none => file
  | some d =>
    match indexOfSub file.content d with
    | some idx => { file with excerpt := file.content.take idx }
    | none => file

/-- A user-supplied json engine for one concrete call, as the `engines`
option permits; its parse returns the mapping the document denotes. -/
def userJsonEngine : Engine :=
  { parse := fun _ => .ok [("abc".toList, "xyz".toList)] }

/-- Options for the C1 counterexample: explicit yaml language plus a
registered json engine. -/
def c1Opts : GrayMatterOptions :=
  { language := some "yaml".toList,
    engines := [("json".toList, userJsonEngine)] }

def c1wFile : GMFile :=
  { data := [("abc".toList, "xyz".toList)], content := "body".toList,
    excerpt := [], orig := "---yml\nabc: xyz\n---\nbody".toList,
    language := "yml".toList, matter := "\nabc: xyz".toList,
    isEmpty := false }

def c2wFile : GMFile :=
  { data := [], content := "lead<!-- more -->rest".toList, excerpt := [],
    orig := [], language := [], matter := [], isEmpty := false }

def c2wOpts : GrayMatterOptions :=
  { excerpt := ExcerptOpt.flag true,
    excerpt_separator := some "<!-- more -->".toList }

def c3wFile : GMFile :=
  { data := [("abc".toList, "xyz".toList)], content := "body".toList,
    excerpt := [], orig := [], language := "yaml".toList, matter := [],
    isEmpty := false }

/-- The record the open-close-only document extracts to. -/
def c4File : GMFile :=
  { data := [], content := [], excerpt := [], orig := "---\n---".toList,
    language := "yaml".toList, matter := [], isEmpty := true,
    empty := some "---\n---".toList }

end GrayMatter

namespace GrayMatter

theorem extract_eq_parseMatter (t : Str) (o : Option GrayMatterOptions) (h : t ≠ []) :
    extract (.str t) o = parseMatter (toFile (.str t)) o := by
  unfold extract matterImpl
  cases t with
  | nil => exact absurd rfl h
  | cons c tl =>
    cases o with
    | none =>
      simp only [cacheGet, List.find?_nil, Option.map_none']
      cases hpm : parseMatter (toFile (.str (c :: tl))) none <;> simp [hpm]
    | some o' => rfl

theorem extract_eq_parseMatter_buf (s : Str) (o : Option GrayMatterOptions) :
    extract (.buf s) o = parseMatter (toFile (.buf s)) o := by
  unfold extract matterImpl
  cases o with
  | none =>
    simp only [cacheGet, List.find?_nil, Option.map_none']
    cases hpm : parseMatter (toFile (.buf s)) none <;> simp [hpm]
  | some o' => rfl

theorem extract_eq_parseMatter_obj (c : Str) (d : Option Data)
    (o : Option GrayMatterOptions) :
    extract (.obj c d) o = parseMatter (toFile (.obj c d)) o := by
  unfold extract matterImpl
  cases o with
  | none =>
    simp only [cacheGet, List.find?_nil, Option.map_none']
    cases hpm : parseMatter (toFile (.obj c d)) none <;> simp [hpm]
  | some o' => rfl

theorem empty_input_extract (o : Option GrayMatterOptions) :
    extract (.str []) o =
      .ok { data := [], content := [], excerpt := [], orig := [],
            language := [], matter := [], isEmpty := true } := rfl

theorem toFile_str_eq (t : Str) :
    toFile (.str t) =
      { data := [], content := stripBom t, excerpt := [], orig := t,
        language := [], matter := [], isEmpty := false } := rfl

theorem validOpen_ne_nil (t : Str) (ro : ResolvedOptions)
    (h : validOpen t ro = true) : t ≠ [] := by
  intro ht
  subst ht
  unfold validOpen startsWithLen jsCharAt at h
  simp at h
  obtain ⟨h1, h2⟩ := h
  rw [h1] at h2
  simp at h2

theorem fileAfterOption_fields (f : GMFile) (opts : ResolvedOptions) :
    (fileAfterOption f opts).data = f.data ∧
    (fileAfterOption f opts).content = f.content ∧
    (fileAfterOption f opts).matter = f.matter ∧
    (fileAfterOption f opts).excerpt = f.excerpt ∧
    (fileAfterOption f opts).isEmpty = f.isEmpty ∧
    (fileAfterOption f opts).empty = f.empty := by
  unfold fileAfterOption; split <;> simp

theorem fileAfterOption_language (f : GMFile) (opts : ResolvedOptions) :
    (fileAfterOption f opts).language =
      if opts.language ≠ [] then opts.language else f.language := by
  unfold fileAfterOption; split <;> simp_all

theorem defaults_language (o : Option GrayMatterOptions) :
    (defaults o).language = (o.bind (fun x => x.language)).getD "yaml".toList := by
  cases o <;> rfl

theorem pm_noopen (f : GMFile) (o : Option GrayMatterOptions)
    (h : startsWithLen f.content (defaults o).delimiters.1
      (defaults o).delimiters.1.length = false) :
    parseMatter f o = .ok (excerpt (fileAfterOption f (defaults o)) (defaults o)) := by
  unfold parseMatter
  simp [h]

theorem pm_collision (f : GMFile) (o : Option GrayMatterOptions)
    (h1 : startsWithLen f.content (defaults o).delimiters.1
      (defaults o).delimiters.1.length = true)
    (h2 : (jsCharAt f.content (defaults o).delimiters.1.length ==
      (defaults o).delimiters.1.getLast?) = true) :
    parseMatter f o = .ok (fileAfterOption f (defaults o)) := by
  unfold parseMatter
  simp [h1, h2]

theorem pm_main (f : GMFile) (o : Option GrayMatterOptions)
    (h1 : startsWithLen f.content (defaults o).delimiters.1
      (defaults o).delimiters.1.length = true)
    (h2 : (jsCharAt f.content (defaults o).delimiters.1.length ==
      (defaults o).delimiters.1.getLast?) = false) :
    parseMatter f o =
      (let opts := defaults o
       let f0 := fileAfterOption f opts
       let lang := langOf f.content opts
       let f1 := if lang.2 ≠ [] then { f0 with language := lang.2 } else f0
       let m := rawMatterOf f.content opts
       let f2 := { f1 with matter := m }
       let fe : Except MatterErr GMFile :=
         if jsTrim (stripComments m) = [] then
           .ok { f2 with isEmpty := true, empty := some f2.content, data := [] }
         else (parseLang f2.language m opts).map (fun d => { f2 with data := d })
       fe.map (fun f3 =>
         excerpt { f3 with content := contentAfterClose f.content opts } opts)) := by
  unfold parseMatter
  simp [h1, h2]

theorem excerpt_noncb_fields (f : GMFile) (opts : ResolvedOptions)
    (h : isCallback opts.excerpt = false) :
    (excerpt f opts).data = f.data ∧ (excerpt f opts).content = f.content ∧
    (excerpt f opts).matter = f.matter ∧ (excerpt f opts).isEmpty = f.isEmpty ∧
    (excerpt f opts).language = f.language ∧ (excerpt f opts).empty = f.empty := by
  unfold excerpt
  cases he : opts.excerpt with
  | fn g => rw [he] at h; simp [isCallback] at h
  | undef => simp only; split
             · simp
             · split <;> simp
  | flag b => simp only; split
              · simp
              · split <;> simp
  | sep s => simp only; split
             · simp
             · split <;> simp

theorem excerpt_noncb_data (f : GMFile) (opts : ResolvedOptions)
    (h : isCallback opts.excerpt = false) : (excerpt f opts).data = f.data :=
  (excerpt_noncb_fields f opts h).1

theorem excerpt_noncb_content (f : GMFile) (opts : ResolvedOptions)
    (h : isCallback opts.excerpt = false) :
    (excerpt f opts).content = f.content :=
  (excerpt_noncb_fields f opts h).2.1

theorem excerpt_noncb_matter (f : GMFile) (opts : ResolvedOptions)
    (h : isCallback opts.excerpt = false) :
    (excerpt f opts).matter = f.matter :=
  (excerpt_noncb_fields f opts h).2.2.1

theorem excerpt_noncb_isEmpty (f : GMFile) (opts : ResolvedOptions)
    (h : isCallback opts.excerpt = false) :
    (excerpt f opts).isEmpty = f.isEmpty :=
  (excerpt_noncb_fields f opts h).2.2.2.1

theorem excerpt_noncb_language (f : GMFile) (opts : ResolvedOptions)
    (h : isCallback opts.excerpt = false) :
    (excerpt f opts).language = f.language :=
  (excerpt_noncb_fields f opts h).2.2.2.2.1

theorem excerpt_noncb_empty (f : GMFile) (opts : ResolvedOptions)
    (h : isCallback opts.excerpt = false) : (excerpt f opts).empty = f.empty :=
  (excerpt_noncb_fields f opts h).2.2.2.2.2

theorem ite_with_language (c : Prop) [Decidable c] (f0 : GMFile) (l : Str) :
    (if c then { f0 with language := l } else f0).language =
      if c then l else f0.language := by
  split <;> rfl

theorem pm_ok_language (f : GMFile) (o : Option GrayMatterOptions) (g : GMFile)
    (hcb : isCallback (defaults o).excerpt = false)
    (h1 : startsWithLen f.content (defaults o).delimiters.1
      (defaults o).delimiters.1.length = true)
    (h2 : (jsCharAt f.content (defaults o).delimiters.1.length ==
      (defaults o).delimiters.1.getLast?) = false)
    (hok : parseMatter f o = .ok g) :
    g.language =
      if (langOf f.content (defaults o)).2 ≠ [] then
        (langOf f.content (defaults o)).2
      else (fileAfterOption f (defaults o)).language := by
  rw [pm_main f o h1 h2] at hok
  simp only at hok
  by_cases hB : jsTrim (stripComments (rawMatterOf f.content (defaults o))) = []
  · rw [if_pos hB] at hok
    simp only [Except.map, Except.ok.injEq] at hok
    subst hok
    obtain ⟨_, _, _, _, hl, _⟩ := excerpt_noncb_fields _ _ hcb
    rw [hl]
    split <;> simp
  · rw [if_neg hB] at hok
    cases hp : parseLang
        (if (langOf f.content (defaults o)).2 ≠ [] then
          { fileAfterOption f (defaults o) with
              language := (langOf f.content (defaults o)).2 }
         else fileAfterOption f (defaults o)).language
        (rawMatterOf f.content (defaults o)) (defaults o) with
    | error e =>
      rw [hp] at hok
      simp [Except.map] at hok
    | ok d =>
      rw [hp] at hok
      simp only [Except.map, Except.ok.injEq] at hok
      subst hok
      obtain ⟨_, _, _, _, hl, _⟩ := excerpt_noncb_fields _ _ hcb
      rw [hl]
      split <;> simp

theorem strAfterLang_length_le (c : Str) (ro : ResolvedOptions) :
    (strAfterLang c ro).length ≤ (strAfterOpen c ro).length := by
  unfold strAfterLang
  split
  · simp
  · exact le_refl _

theorem rawMatter_of_no_close (c : Str) (ro : ResolvedOptions)
    (hnc : indexOfSub (strAfterLang c ro) ('\n' :: ro.delimiters.2) = none) :
    rawMatterOf c ro = strAfterLang c ro := by
  unfold rawMatterOf closeIndexOf
  rw [hnc]
  exact List.take_of_length_le (strAfterLang_length_le c ro)

theorem content_of_no_close (c : Str) (ro : ResolvedOptions)
    (hnc : indexOfSub (strAfterLang c ro) ('\n' :: ro.delimiters.2) = none) :
    contentAfterClose c ro = [] := by
  unfold contentAfterClose closeIndexOf
  rw [hnc]
  simp

theorem pm_main_result_empty (f : GMFile) (o : Option GrayMatterOptions)
    (hcb : isCallback (defaults o).excerpt = false)
    (h1 : startsWithLen f.content (defaults o).delimiters.1
      (defaults o).delimiters.1.length = true)
    (h2 : (jsCharAt f.content (defaults o).delimiters.1.length ==
      (defaults o).delimiters.1.getLast?) = false)
    (hB : jsTrim (stripComments (rawMatterOf f.content (defaults o))) = []) :
    ∃ g, parseMatter f o = .ok g ∧ g.isEmpty = true ∧ g.data = [] ∧
      g.empty = some f.content ∧ g.matter = rawMatterOf f.content (defaults o) ∧
      g.content = contentAfterClose f.content (defaults o) := by
  rw [pm_main f o h1 h2]
  simp only
  rw [if_pos hB]
  simp only [Except.map]
  refine ⟨_, rfl, ?_, ?_, ?_, ?_, ?_⟩
  · rw [excerpt_noncb_isEmpty _ _ hcb]
  · rw [excerpt_noncb_data _ _ hcb]
  · rw [excerpt_noncb_empty _ _ hcb]
    simp only
    split <;> simp [(fileAfterOption_fields f (defaults o)).2.1]
  · rw [excerpt_noncb_matter _ _ hcb]
  · rw [excerpt_noncb_content _ _ hcb]

theorem pm_main_result_parsed (f : GMFile) (o : Option GrayMatterOptions)
    (d : Data)
    (hcb : isCallback (defaults o).excerpt = false)
    (h1 : startsWithLen f.content (defaults o).delimiters.1
      (defaults o).delimiters.1.length = true)
    (h2 : (jsCharAt f.content (defaults o).delimiters.1.length ==
      (defaults o).delimiters.1.getLast?) = false)
    (hB : jsTrim (stripComments (rawMatterOf f.content (defaults o))) ≠ [])
    (hp : parseLang (mainLanguage f o) (rawMatterOf f.content (defaults o))
      (defaults o) = .ok d) :
    ∃ g, parseMatter f o = .ok g ∧ g.data = d ∧ g.isEmpty = f.isEmpty ∧
      g.matter = rawMatterOf f.content (defaults o) ∧
      g.content = contentAfterClose f.content (defaults o) := by
  rw [pm_main f o h1 h2]
  simp only
  rw [if_neg hB]
  unfold mainLanguage at hp
  rw [← ite_with_language] at hp
  rw [hp]
  simp only [Except.map]
  refine ⟨_, rfl, ?_, ?_, ?_, ?_⟩
  · rw [excerpt_noncb_data _ _ hcb]
  · rw [excerpt_noncb_isEmpty _ _ hcb]
    simp only
    split <;> simp [(fileAfterOption_fields f (defaults o)).2.2.2.2.1]
  · rw [excerpt_noncb_matter _ _ hcb]
  · rw [excerpt_noncb_content _ _ hcb]

theorem pm_isEmpty_data (file : GMFile) (o : Option GrayMatterOptions)
    (f : GMFile) (hd : file.isEmpty = false)
    (hcb : isCallback (defaults o).excerpt = false)
    (hok : parseMatter file o = .ok f) (hie : f.isEmpty = true) :
    f.data = [] := by
  by_cases hS : startsWithLen file.content (defaults o).delimiters.1
      (defaults o).delimiters.1.length = true
  · by_cases hC : (jsCharAt file.content (defaults o).delimiters.1.length ==
        (defaults o).delimiters.1.getLast?) = true
    · rw [pm_collision file o hS hC] at hok
      simp only [Except.ok.injEq] at hok
      subst hok
      rw [(fileAfterOption_fields file (defaults o)).2.2.2.2.1, hd] at hie
      exact absurd hie (by simp)
    · have hC' : (jsCharAt file.content (defaults o).delimiters.1.length ==
          (defaults o).delimiters.1.getLast?) = false := by
        simpa using hC
      by_cases hB : jsTrim (stripComments
          (rawMatterOf file.content (defaults o))) = []
      · obtain ⟨g, hok2, _, hdata, _, _, _⟩ :=
          pm_main_result_empty file o hcb hS hC' hB
        rw [hok] at hok2
        simp only [Except.ok.injEq] at hok2
        rw [hok2]
        exact hdata
      · rw [pm_main file o hS hC'] at hok
        simp only at hok
        rw [if_neg hB] at hok
        cases hparse : parseLang
            (if (langOf file.content (defaults o)).2 ≠ [] then
              { fileAfterOption file (defaults o) with
                  language := (langOf file.content (defaults o)).2 }
             else fileAfterOption file (defaults o)).language
            (rawMatterOf file.content (defaults o)) (defaults o) with
        | error e =>
          rw [hparse] at hok
          simp [Except.map] at hok
        | ok d =>
          rw [hparse] at hok
          simp only [Except.map, Except.ok.injEq] at hok
          subst hok
          rw [excerpt_noncb_isEmpty _ _ hcb] at hie
          simp only at hie
          split at hie <;>
            · simp only [(fileAfterOption_fields file (defaults o)).2.2.2.2.1,
                hd] at hie
              exact absurd hie (by simp)
  · have hS' : startsWithLen file.content (defaults o).delimiters.1
        (defaults o).delimiters.1.length = false := by simpa using hS
    rw [pm_noopen file o hS'] at hok
    simp only [Except.ok.injEq] at hok
    subst hok
    rw [excerpt_noncb_isEmpty _ _ hcb,
      (fileAfterOption_fields file (defaults o)).2.2.2.2.1, hd] at hie
    exact absurd hie (by simp)

/-- C1 counterexample: with an explicit `language: yaml` option, a document
carrying an inline `json` tag still comes back with language `json` — the
inline tag overrides the caller-supplied option. -/
theorem c1_counterexample :
    (extract (.str "---json\n\x7b\"abc\": \"xyz\"\x7d\n---\nbody".toList)
        (some c1Opts)).map GMFile.language = .ok "json".toList ∧
    "json".toList ≠ "yaml".toList := by
  exact ⟨by decide, by decide⟩

/-- C1 amended: for every successfully extracted document with front matter,
the resulting language is the inline tag when one is present, else the
caller-supplied option, else yaml. -/
theorem c1_language_resolution_amended (t : Str)
    (o : Option GrayMatterOptions) (f : GMFile)
    (hb : stripBom t = t)
    (hv : validOpen t (defaults o) = true)
    (hcb : isCallback (defaults o).excerpt = false)
    (hok : extract (.str t) o = .ok f) :
    f.language = amendedLanguage t o := by
  have ht := validOpen_ne_nil t _ hv
  rw [extract_eq_parseMatter t o ht] at hok
  unfold validOpen at hv
  simp only [Bool.and_eq_true, Bool.not_eq_true'] at hv
  obtain ⟨h1, h2⟩ := hv
  have hc : (toFile (.str t)).content = t := by rw [toFile_str_eq]; exact hb
  have hlang := pm_ok_language (toFile (.str t)) o f hcb (by rw [hc]; exact h1)
    (by rw [hc]; exact h2) hok
  rw [hc] at hlang
  rw [hlang]
  unfold amendedLanguage
  split
  · rfl
  · rw [fileAfterOption_language, toFile_str_eq, ← defaults_language]
    split <;> simp_all

theorem c1_language_resolution_amended_witness :
    extract (.str "---yml\nabc: xyz\n---\nbody".toList)
        (some { language := some "yaml".toList }) = .ok c1wFile ∧
    c1wFile.language =
      amendedLanguage "---yml\nabc: xyz\n---\nbody".toList
        (some { language := some "yaml".toList }) :=
  ⟨by decide,
   c1_language_resolution_amended "---yml\nabc: xyz\n---\nbody".toList
     (some { language := some "yaml".toList }) c1wFile (by decide) (by decide)
     (by decide) (by decide)⟩

/-- C2 counterexample: with a data-level excerpt_separator "B" and a
literal-string excerpt option "A", the code slices at "A" — the
literal-string option wins, not the data-level field as claimed. -/
theorem c2_counterexample :
    (excerpt
        { data := [("excerpt_separator".toList, "B".toList)],
          content := "1A2B3".toList, excerpt := [], orig := [],
          language := [], matter := [], isEmpty := false }
        (defaults (some { excerpt := .sep "A".toList }))).excerpt =
      "1".toList ∧
    "1".toList ≠ "1A2".toList := by
  exact ⟨by decide, by decide⟩

/-- C2 amended: for every document and non-callback configuration the
excerpt extractor behaves exactly as the corrected resolution policy —
literal-string excerpt option, then data-level excerpt_separator, then
configured excerpt_separator, then open delimiter, skipping entirely when
the option is off and no separator exists. -/
theorem c2_excerpt_separator_amended (file : GMFile) (opts : ResolvedOptions)
    (h : isCallback opts.excerpt = false) :
    excerpt file opts = excerptAmendedSpec file opts := by
  unfold excerpt excerptAmendedSpec amendedSeparator
  cases he : opts.excerpt with
  | fn g => rw [he] at h; simp [isCallback] at h
  | undef =>
    simp only [excerptStr?, excerptIsOff]
    cases hs : (lookupData file.data "excerpt_separator".toList).orElse
        (fun _ => opts.excerpt_separator) <;> simp [hs]
  | flag b =>
    cases b <;>
      · simp only [excerptStr?, excerptIsOff]
        cases hs : (lookupData file.data "excerpt_separator".toList).orElse
            (fun _ => opts.excerpt_separator) <;> simp [hs]
  | sep s =>
    simp only [excerptStr?, excerptIsOff]
    cases hs : (lookupData file.data "excerpt_separator".toList).orElse
        (fun _ => opts.excerpt_separator) <;> simp [hs]

theorem c2_excerpt_separator_amended_witness :
    excerpt c2wFile (defaults (some c2wOpts)) =
      excerptAmendedSpec c2wFile (defaults (some c2wOpts)) :=
  c2_excerpt_separator_amended _ _ (by decide)

/-- C3: round-trip.  For any engine whose stringify/parse pair round-trips
the document's data (the "modulo engine-specific coercions" proviso), and
the default delimiters, extracting the stringified document yields the same
data mapping.  `M` abbreviates the trimmed serialised matter; the structural
hypotheses say the serialised block does not itself contain or abut a close
delimiter and does not trim to the empty-object sentinel. -/
theorem c3_roundtrip (f : GMFile) (o : Option GrayMatterOptions) (e : Engine)
    (sf : Data → Str) (M : Str)
    (hM : M = jsTrim (sf (mergeData f.data f.data)))
    (hdel : (defaults o).delimiters = ("---".toList, "---".toList))
    (hcb : isCallback (defaults o).excerpt = false)
    (hes : getEngine (if f.language ≠ [] then f.language
      else (defaults o).language) (defaults o) = some e)
    (hsf : e.stringify = some sf)
    (hm : M ≠ "{}".toList)
    (hnl : newline M = M ++ ['\n'])
    (hexc : f.excerpt = [] ∨ indexOfSub f.content (jsTrim f.excerpt) ≠ none)
    (hocc : indexOfSub
      ('\n' :: (M ++ '\n' :: '-' :: '-' :: '-' :: '\n' :: newline f.content))
      ('\n' :: '-' :: '-' :: '-' :: []) = some (M.length + 1))
    (hblk : jsTrim (stripComments ('\n' :: M)) ≠ [])
    (hparse : parseLang (defaults o).language ('\n' :: M) (defaults o) =
      .ok f.data) :
    ∃ out g, stringifyGM f (some f.data) o = .ok out ∧
      extract (.str out) o = .ok g ∧ g.data = f.data := by
  have hst : stringifyGM f (some f.data) o =
      .ok ('-' :: '-' :: '-' :: '\n' ::
        (M ++ '\n' :: '-' :: '-' :: '-' :: '\n' :: newline f.content)) := by
    unfold stringifyGM
    simp only [Option.isNone_some, Bool.false_and, Bool.and_false, if_neg,
      Bool.false_eq_true, not_false_iff]
    simp only [hes, hsf]
    simp only [← hM]
    rw [if_pos hm, hdel]
    rw [if_neg (by
      intro hand
      cases hexc with
      | inl hl => exact hand.1 hl
      | inr hr => exact hr hand.2)]
    rw [hnl]
    simp [newline]
  have ht : ('-' :: '-' :: '-' :: '\n' ::
      (M ++ '\n' :: '-' :: '-' :: '-' :: '\n' :: newline f.content) : Str) ≠
      [] := by simp
  have hcont : (toFile (.str ('-' :: '-' :: '-' :: '\n' ::
      (M ++ '\n' :: '-' :: '-' :: '-' :: '\n' :: newline f.content)))).content =
      '-' :: '-' :: '-' :: '\n' ::
        (M ++ '\n' :: '-' :: '-' :: '-' :: '\n' :: newline f.content) := by
    rw [toFile_str_eq]
    simp [stripBom]
  have h1 : startsWithLen ('-' :: '-' :: '-' :: '\n' ::
      (M ++ '\n' :: '-' :: '-' :: '-' :: '\n' :: newline f.content))
      (defaults o).delimiters.1 (defaults o).delimiters.1.length = true := by
    rw [hdel]; rfl
  have h2 : (jsCharAt ('-' :: '-' :: '-' :: '\n' ::
      (M ++ '\n' :: '-' :: '-' :: '-' :: '\n' :: newline f.content))
      (defaults o).delimiters.1.length ==
      (defaults o).delimiters.1.getLast?) = false := by
    rw [hdel]; rfl
  have hTag : (langOf ('-' :: '-' :: '-' :: '\n' ::
      (M ++ '\n' :: '-' :: '-' :: '-' :: '\n' :: newline f.content))
      (defaults o)).2 = [] := by
    unfold langOf matterLanguage strAfterOpen
    rw [hdel]
    rfl
  have hSAL : strAfterLang ('-' :: '-' :: '-' :: '\n' ::
      (M ++ '\n' :: '-' :: '-' :: '-' :: '\n' :: newline f.content))
      (defaults o) = '\n' ::
      (M ++ '\n' :: '-' :: '-' :: '-' :: '\n' :: newline f.content) := by
    unfold strAfterLang
    rw [hTag]
    rw [if_neg (by simp)]
    unfold strAfterOpen
    rw [hdel]
    rfl
  have hocc2 : indexOfSub
      ('\n' :: (M ++ '\n' :: '-' :: '-' :: '-' :: '\n' :: newline f.content))
      ('\n' :: (("---".toList, "---".toList) : Str × Str).2) =
      some (M.length + 1) := hocc
  have hCI : closeIndexOf ('-' :: '-' :: '-' :: '\n' ::
      (M ++ '\n' :: '-' :: '-' :: '-' :: '\n' :: newline f.content))
      (defaults o) = M.length + 1 := by
    unfold closeIndexOf
    rw [hSAL, hdel, hocc2]
    rfl
  have hRM : rawMatterOf ('-' :: '-' :: '-' :: '\n' ::
      (M ++ '\n' :: '-' :: '-' :: '-' :: '\n' :: newline f.content))
      (defaults o) = '\n' :: M := by
    unfold rawMatterOf
    rw [hSAL, hCI, List.take_succ_cons]
    congr 1
    exact List.take_left M _
  have hML : mainLanguage (toFile (.str ('-' :: '-' :: '-' :: '\n' ::
      (M ++ '\n' :: '-' :: '-' :: '-' :: '\n' :: newline f.content)))) o =
      (defaults o).language := by
    unfold mainLanguage
    rw [hcont, hTag]
    rw [if_neg (by simp)]
    rw [fileAfterOption_language, toFile_str_eq]
    split <;> simp_all
  obtain ⟨g, hok, hgd, _, _, _⟩ :=
    pm_main_result_parsed (toFile (.str ('-' :: '-' :: '-' :: '\n' ::
        (M ++ '\n' :: '-' :: '-' :: '-' :: '\n' :: newline f.content)))) o
      f.data hcb (by rw [hcont]; exact h1) (by rw [hcont]; exact h2)
      (by rw [hcont, hRM]; exact hblk)
      (by rw [hML, hcont, hRM]; exact hparse)
  exact ⟨_, g, hst, by rw [extract_eq_parseMatter _ o ht]; exact hok, hgd⟩

theorem c3_roundtrip_witness :
    ∃ out g, stringifyGM c3wFile (some c3wFile.data) none = .ok out ∧
      extract (.str out) none = .ok g ∧ g.data = c3wFile.data :=
  c3_roundtrip c3wFile none yamlEngine yamlStringifyModel "abc: xyz".toList
    (by decide) (by decide) (by decide) rfl rfl (by decide) (by decide)
    (Or.inl rfl) (by decide) (by decide) (by decide)

/-- C4: comment-stripping plus trim decides emptiness — an empty stripped
block sets isEmpty, clears data, stores the original content in the
auxiliary empty field (with no engine involved: no engine hypothesis is
needed); a non-empty block hands the unstripped raw block to the resolved
engine and its mapping becomes the data.  Every returned record with
isEmpty true has empty data, and the open-close-only document is the
canonical empty extraction. -/
theorem c4_empty_block :
    (∀ (t : Str) (o : Option GrayMatterOptions),
      stripBom t = t → isCallback (defaults o).excerpt = false →
      validOpen t (defaults o) = true →
      ((jsTrim (stripComments (rawMatterOf t (defaults o))) = [] →
        ∃ f, extract (.str t) o = .ok f ∧ f.isEmpty = true ∧ f.data = [] ∧
          f.empty = some t) ∧
       (∀ d, jsTrim (stripComments (rawMatterOf t (defaults o))) ≠ [] →
        parseLang (mainLanguage (toFile (.str t)) o)
          (rawMatterOf t (defaults o)) (defaults o) = .ok d →
        ∃ f, extract (.str t) o = .ok f ∧ f.data = d ∧ f.isEmpty = false))) ∧
    (∀ (i : GMInput) (o : Option GrayMatterOptions) (f : GMFile),
      isCallback (defaults o).excerpt = false →
      extract i o = .ok f → f.isEmpty = true → f.data = []) ∧
    (∃ f, extract (.str "---\n---".toList) none = .ok f ∧ f.isEmpty = true ∧
      f.data = [] ∧ f.content = []) := by
  refine ⟨?_, ?_, ?_⟩
  · intro t o hb hcb hv
    have ht := validOpen_ne_nil t _ hv
    unfold validOpen at hv
    simp only [Bool.and_eq_true, Bool.not_eq_true'] at hv
    obtain ⟨h1, h2⟩ := hv
    have hc : (toFile (.str t)).content = t := by rw [toFile_str_eq]; exact hb
    constructor
    · intro hB
      rw [extract_eq_parseMatter t o ht]
      obtain ⟨g, hok, hg1, hg2, hg3, _, _⟩ :=
        pm_main_result_empty (toFile (.str t)) o hcb (by rw [hc]; exact h1)
          (by rw [hc]; exact h2) (by rw [hc]; exact hB)
      exact ⟨g, hok, hg1, hg2, by rw [hg3, hc]⟩
    · intro d hB hp
      rw [extract_eq_parseMatter t o ht]
      obtain ⟨g, hok, hg1, hg2, _, _⟩ :=
        pm_main_result_parsed (toFile (.str t)) o d hcb (by rw [hc]; exact h1)
          (by rw [hc]; exact h2) (by rw [hc]; exact hB) (by rw [hc]; exact hp)
      exact ⟨g, hok, hg1, by rw [hg2, toFile_str_eq]⟩
  · intro i o f hcb hok hie
    cases i with
    | str s =>
      cases s with
      | nil =>
        rw [empty_input_extract o] at hok
        simp only [Except.ok.injEq] at hok
        rw [← hok]
      | cons c tl =>
        rw [extract_eq_parseMatter (c :: tl) o (by simp)] at hok
        exact pm_isEmpty_data _ o f rfl hcb hok hie
    | buf s =>
      rw [extract_eq_parseMatter_buf s o] at hok
      exact pm_isEmpty_data _ o f rfl hcb hok hie
    | obj c d =>
      rw [extract_eq_parseMatter_obj c d o] at hok
      exact pm_isEmpty_data _ o f rfl hcb hok hie
  · exact ⟨c4File, by decide, rfl, rfl, rfl⟩

theorem c4_empty_block_witness :
    (∃ f, extract (.str "---\n# note\n---\nB".toList) none = .ok f ∧
      f.isEmpty = true ∧ f.data = [] ∧
      f.empty = some "---\n# note\n---\nB".toList) ∧
    (∃ f, extract (.str "---\ntag: v\n---\nB".toList) none = .ok f ∧
      f.data = [("tag".toList, "v".toList)] ∧ f.isEmpty = false) :=
  ⟨(c4_empty_block.1 "---\n# note\n---\nB".toList none (by decide) (by decide)
      (by decide)).1 (by decide),
   (c4_empty_block.1 "---\ntag: v\n---\nB".toList none (by decide) (by decide)
      (by decide)).2 [("tag".toList, "v".toList)] (by decide) (by decide)⟩

/-- C5: inputs that start with the open delimiter but whose next character
repeats the delimiter's last character are rejected by the collision guard:
no front matter is extracted, no error is raised. -/
theorem c5_collision_guard (t : Str) (o : Option GrayMatterOptions)
    (hb : stripBom t = t)
    (h1 : startsWithLen t (defaults o).delimiters.1
      (defaults o).delimiters.1.length = true)
    (h2 : (jsCharAt t (defaults o).delimiters.1.length ==
      (defaults o).delimiters.1.getLast?) = true) :
    ∃ f, extract (.str t) o = .ok f ∧ f.data = [] ∧ f.matter = [] ∧
      f.content = t := by
  by_cases ht : t = []
  · subst ht
    exact ⟨_, empty_input_extract o, rfl, rfl, rfl⟩
  · rw [extract_eq_parseMatter t o ht]
    have hc : (toFile (.str t)).content = t := by rw [toFile_str_eq]; exact hb
    have hpm := pm_collision (toFile (.str t)) o (by rw [hc]; exact h1)
      (by rw [hc]; exact h2)
    obtain ⟨hd, hcc, hm, _, _, _⟩ :=
      fileAfterOption_fields (toFile (.str t)) (defaults o)
    exact ⟨_, hpm, by rw [hd, toFile_str_eq], by rw [hm, toFile_str_eq],
      by rw [hcc, hc]⟩

theorem c5_collision_guard_witness :
    ∃ f, extract (.str "----\nabc: xyz\n----".toList) none = .ok f ∧
      f.data = [] ∧ f.matter = [] ∧ f.content = "----\nabc: xyz\n----".toList :=
  c5_collision_guard "----\nabc: xyz\n----".toList none (by decide) (by decide)
    (by decide)

/-- C6: the CRLF document and its LF-only equivalent yield the same data and
the same body, both equal to the claimed values. -/
theorem c6_crlf_equivalence :
    ((extract (.str "---\r\nabc: xyz\r\n---\r\nbody".toList) none).map
        GMFile.data = .ok [("abc".toList, "xyz".toList)]) ∧
    ((extract (.str "---\nabc: xyz\n---\nbody".toList) none).map
        GMFile.data = .ok [("abc".toList, "xyz".toList)]) ∧
    ((extract (.str "---\r\nabc: xyz\r\n---\r\nbody".toList) none).map
        GMFile.content = .ok "body".toList) ∧
    ((extract (.str "---\nabc: xyz\n---\nbody".toList) none).map
        GMFile.content = .ok "body".toList) := by
  exact ⟨by decide, by decide, by decide, by decide⟩

/-- C7: a valid front-matter start whose closing delimiter never occurs is
not an error: the whole remaining text (after open delimiter and inline tag)
becomes the raw matter and the content becomes empty.  The engine hypothesis
asks only that the engine can parse the non-empty block, matching the spec's
separate provision that engine syntax errors propagate. -/
theorem c7_missing_close (t : Str) (o : Option GrayMatterOptions)
    (hb : stripBom t = t)
    (hv : validOpen t (defaults o) = true)
    (hcb : isCallback (defaults o).excerpt = false)
    (hnc : indexOfSub (strAfterLang t (defaults o))
      ('\n' :: (defaults o).delimiters.2) = none)
    (hp : jsTrim (stripComments (strAfterLang t (defaults o))) ≠ [] →
      ∃ d, parseLang (mainLanguage (toFile (.str t)) o)
        (strAfterLang t (defaults o)) (defaults o) = .ok d) :
    ∃ f, extract (.str t) o = .ok f ∧
      f.matter = strAfterLang t (defaults o) ∧ f.content = [] := by
  have ht := validOpen_ne_nil t _ hv
  rw [extract_eq_parseMatter t o ht]
  unfold validOpen at hv
  simp only [Bool.and_eq_true, Bool.not_eq_true'] at hv
  obtain ⟨h1, h2⟩ := hv
  have hc : (toFile (.str t)).content = t := by rw [toFile_str_eq]; exact hb
  have hmr : rawMatterOf (toFile (.str t)).content (defaults o) =
      strAfterLang t (defaults o) := by
    rw [hc]; exact rawMatter_of_no_close t (defaults o) hnc
  have hcc : contentAfterClose (toFile (.str t)).content (defaults o) = [] := by
    rw [hc]; exact content_of_no_close t (defaults o) hnc
  by_cases hB : jsTrim (stripComments (strAfterLang t (defaults o))) = []
  · obtain ⟨g, hok, _, _, _, hm, hcon⟩ :=
      pm_main_result_empty (toFile (.str t)) o hcb (by rw [hc]; exact h1)
        (by rw [hc]; exact h2) (by rw [hmr]; exact hB)
    exact ⟨g, hok, by rw [hm, hmr], by rw [hcon, hcc]⟩
  · obtain ⟨d, hd⟩ := hp hB
    obtain ⟨g, hok, _, _, hm, hcon⟩ :=
      pm_main_result_parsed (toFile (.str t)) o d hcb (by rw [hc]; exact h1)
        (by rw [hc]; exact h2) (by rw [hmr]; exact hB) (by rw [hmr]; exact hd)
    exact ⟨g, hok, by rw [hm, hmr], by rw [hcon, hcc]⟩

theorem c7_missing_close_witness :
    ∃ f, extract (.str "---\nabc: xyz".toList) none = .ok f ∧
      f.matter = strAfterLang "---\nabc: xyz".toList (defaults none) ∧
      f.content = [] :=
  c7_missing_close "---\nabc: xyz".toList none (by decide) (by decide)
    (by decide) (by decide)
    (fun _ => ⟨[("abc".toList, "xyz".toList)], by decide⟩)

/-- C8 counterexample: a leading byte-order mark is stripped by the
normaliser, so for a BOM-carrying input without front matter the returned
content is not the input itself. -/
theorem c8_counterexample :
    (extract (.str ('﻿' :: "x".toList)) none).map GMFile.content =
      .ok "x".toList ∧
    "x".toList ≠ '﻿' :: "x".toList := by
  exact ⟨by decide, by decide⟩

/-- C8 amended: for every BOM-free input that does not start with the open
delimiter, and a non-callback excerpt option, extraction returns the document
unchanged — empty data and the full input as content — without error. -/
theorem c8_no_front_matter_amended (t : Str) (o : Option GrayMatterOptions)
    (hb : stripBom t = t)
    (hcb : isCallback (defaults o).excerpt = false)
    (hns : startsWithLen t (defaults o).delimiters.1
      (defaults o).delimiters.1.length = false) :
    ∃ f, extract (.str t) o = .ok f ∧ f.data = [] ∧ f.content = t := by
  by_cases ht : t = []
  · subst ht
    exact ⟨_, empty_input_extract o, rfl, rfl⟩
  · rw [extract_eq_parseMatter t o ht]
    have hc : (toFile (.str t)).content = t := by rw [toFile_str_eq]; exact hb
    have hpm := pm_noopen (toFile (.str t)) o (by rw [hc]; exact hns)
    obtain ⟨hd, hcc, _, _, _, _⟩ :=
      excerpt_noncb_fields (fileAfterOption (toFile (.str t)) (defaults o))
        (defaults o) hcb
    obtain ⟨hd2, hcc2, _, _, _, _⟩ :=
      fileAfterOption_fields (toFile (.str t)) (defaults o)
    exact ⟨_, hpm, by rw [hd, hd2, toFile_str_eq], by rw [hcc, hcc2, hc]⟩

theorem c8_no_front_matter_amended_witness :
    ∃ f, extract (.str "plain body text".toList) none = .ok f ∧
      f.data = [] ∧ f.content = "plain body text".toList :=
  c8_no_front_matter_amended "plain body text".toList none (by decide)
    (by decide) (by decide)

/-- C9: the empty-string input takes a dedicated shortcut: fixed record with
empty data, content, excerpt, language and matter, isEmpty true, and the
cache is neither consulted (the result is the same for every cache) nor
populated (the cache is returned unchanged). -/
theorem c9_empty_string_shortcut (cache : Cache) (o : Option GrayMatterOptions) :
    matterImpl cache (.str []) o =
      (.ok { data := [], content := [], excerpt := [], orig := [],
             language := [], matter := [], isEmpty := true }, cache) := rfl

/-- C10 counterexample: on the collision path the language field is not what
the normaliser produced (empty) but the resolved language option, because the
extractor seeds it before the guard fires. -/
theorem c10_counterexample :
    (toFile (.str "----\nabc: xyz\n----".toList)).language = [] ∧
    (extract (.str "----\nabc: xyz\n----".toList)
        (some { language := some "yaml".toList, excerpt := .flag true })).map
      GMFile.language = .ok "yaml".toList ∧
    "yaml".toList ≠ ([] : Str) := by
  exact ⟨by decide, by decide, by decide⟩

/-- C10 amended: when the collision guard fires the extractor returns before
excerpt extraction ever runs — the excerpt stays empty whatever the excerpt
option — and every field except language keeps the normaliser's value;
language has already been seeded with the resolved language option. -/
theorem c10_collision_frame_amended (t : Str) (o : Option GrayMatterOptions)
    (ht : t ≠ []) (hb : stripBom t = t)
    (h1 : startsWithLen t (defaults o).delimiters.1
      (defaults o).delimiters.1.length = true)
    (h2 : (jsCharAt t (defaults o).delimiters.1.length ==
      (defaults o).delimiters.1.getLast?) = true) :
    ∃ f, extract (.str t) o = .ok f ∧ f.excerpt = [] ∧
      f.data = (toFile (.str t)).data ∧ f.content = (toFile (.str t)).content ∧
      f.matter = (toFile (.str t)).matter ∧
      f.isEmpty = (toFile (.str t)).isEmpty ∧
      f.empty = (toFile (.str t)).empty ∧
      f.language = (defaults o).language := by
  rw [extract_eq_parseMatter t o ht]
  have hc : (toFile (.str t)).content = t := by rw [toFile_str_eq]; exact hb
  have hpm := pm_collision (toFile (.str t)) o (by rw [hc]; exact h1)
    (by rw [hc]; exact h2)
  obtain ⟨hd, hcc, hm, hex, hie, hem⟩ :=
    fileAfterOption_fields (toFile (.str t)) (defaults o)
  refine ⟨_, hpm, ?_, hd, hcc, hm, hie, hem, ?_⟩
  · rw [hex, toFile_str_eq]
  · rw [fileAfterOption_language, toFile_str_eq]
    split <;> simp_all

theorem c10_collision_frame_amended_witness :
    ∃ f, extract (.str "----\nkey: val\n----".toList)
        (some { excerpt := .flag true }) = .ok f ∧ f.excerpt = [] ∧
      f.data = (toFile (.str "----\nkey: val\n----".toList)).data ∧
      f.content = (toFile (.str "----\nkey: val\n----".toList)).content ∧
      f.matter = (toFile (.str "----\nkey: val\n----".toList)).matter ∧
      f.isEmpty = (toFile (.str "----\nkey: val\n----".toList)).isEmpty ∧
      f.empty = (toFile (.str "----\nkey: val\n----".toList)).empty ∧
      f.language = (defaults (some { excerpt := .flag true })).language :=
  c10_collision_frame_amended "----\nkey: val\n----".toList
    (some { excerpt := .flag true }) (by decide) (by decide) (by decide)
    (by decide)

end GrayMatter
